import Mathlib

/-!
Verification of the avalanche-proof serialization core of ElectrumABC.

The definitions below are a shallow embedding of the Python sources
`electroncash/avalanche/serialize.py` and `electroncash/avaproof.py`.
Byte strings are modelled as `List Nat` (each element a byte value),
streams as a `List Nat` that is consumed from the front, and fallible
operations return `Option`.  The cryptographic collaborators
(double-SHA256, Schnorr signing, public-key derivation, WIF decoding)
are black boxes in the source (imported from `schnorr` / `bitcoin`) and
are modelled as an abstract `Crypto` bundle of functions.
-/

namespace ElectrumABC

/-- Little-endian encoding of `n` on `k` bytes (the model of
`struct.pack` with formats `B`, `<H`, `<L`/`<I`, `<Q`): byte `i` is
`n / 256^i % 256`. -/
def natToLE : Nat → Nat → List Nat
  | 0, _ => []
  | k + 1, n => n % 256 :: natToLE k (n / 256)

/-- Little-endian decoding of a byte list (the model of `struct.unpack`
with formats `<H`, `<I`, `<Q`). -/
def leToNat : List Nat → Nat
  | [] => 0
  | b :: bs => b + 256 * leToNat bs

/-- Two's-complement little-endian encoding of a signed integer on `k`
bytes (the model of `struct.pack` with format `<q`). -/
def intToLE (k : Nat) (x : Int) : List Nat :=
  natToLE k (x % ((2 : Int) ^ (8 * k))).toNat

theorem natToLE_length : ∀ (k n : Nat), (natToLE k n).length = k
  | 0, _ => rfl
  | k + 1, n => by simp [natToLE, natToLE_length k]

theorem leToNat_natToLE : ∀ (k n : Nat), leToNat (natToLE k n) = n % 2 ^ (8 * k)
  | 0, n => by simp [natToLE, leToNat, Nat.mod_one]
  | k + 1, n => by
    have hm : (2 : Nat) ^ (8 * (k + 1)) = 256 * 2 ^ (8 * k) := by
      rw [Nat.mul_add, Nat.pow_add, Nat.mul_comm]
    have hdvd : (256 : Nat) ∣ 256 * 2 ^ (8 * k) := Dvd.intro _ rfl
    have h1 : n % (256 * 2 ^ (8 * k)) % 256 = n % 256 := Nat.mod_mod_of_dvd n hdvd
    have h2 : n % (256 * 2 ^ (8 * k)) / 256 = n / 256 % 2 ^ (8 * k) :=
      Nat.mod_mul_right_div_self n 256 _
    have h3 := Nat.div_add_mod (n % (256 * 2 ^ (8 * k))) 256
    simp only [natToLE, leToNat, leToNat_natToLE k, hm]
    omega

theorem natToLE_mem_lt : ∀ (k n : Nat), ∀ b ∈ natToLE k n, b < 256
  | 0, _ => by simp [natToLE]
  | k + 1, n => by
    simp only [natToLE, List.mem_cons, forall_eq_or_imp]
    exact ⟨Nat.mod_lt _ (by norm_num), natToLE_mem_lt k (n / 256)⟩

/-- Model of `stream.read(k)` followed by a `struct.unpack` that
requires exactly `k` bytes: `BytesIO.read` returns at most `k` bytes and
`struct.unpack` raises when given fewer, so the combination fails unless
`k` bytes are available. -/
def readExact (k : Nat) (s : List Nat) : Option (List Nat × List Nat) :=
  if k ≤ s.length then some (s.take k, s.drop k) else none

theorem readExact_append {l : List Nat} {k : Nat} (h : l.length = k) (rest : List Nat) :
    readExact k (l ++ rest) = some (l, rest) := by
  subst h
  rw [readExact, if_pos (by simp), List.take_left, List.drop_left]

/-- `write_compact_size` from `avalanche/serialize.py` (the identical
copy in `avaproof.py` is the same function).  Values below 253 use one
byte; otherwise a marker byte 253/254/255 is followed by a 2/4/8-byte
little-endian value. -/
def write_compact_size (nsize : Nat) : List Nat :=
  if nsize < 253 then [nsize]
  else if nsize < 0x10000 then 253 :: natToLE 2 nsize
  else if nsize < 0x100000000 then 254 :: natToLE 4 nsize
  else 255 :: natToLE 8 nsize

/-- `read_compact_size` from `avalanche/serialize.py`: read one marker
byte, then 0/2/4/8 further bytes according to its value. -/
def read_compact_size (s : List Nat) : Option (Nat × List Nat) :=
  match s with
  | [] => none
  | nit :: rest =>
    if nit = 253 then
      match readExact 2 rest with
      | none => none
      | some (bs, rest2) => some (leToNat bs, rest2)
    else if nit = 254 then
      match readExact 4 rest with
      | none => none
      | some (bs, rest2) => some (leToNat bs, rest2)
    else if nit = 255 then
      match readExact 8 rest with
      | none => none
      | some (bs, rest2) => some (leToNat bs, rest2)
    else some (nit, rest)

/-- `serialize_blob`: compact-size length prefix followed by the raw
bytes. -/
def serialize_blob (blob : List Nat) : List Nat :=
  write_compact_size blob.length ++ blob

/-- `deserialize_blob`: read a compact size, then `stream.read(size)`.
`BytesIO.read` returns the available bytes even when fewer than `size`
remain, so no truncation check happens here. -/
def deserialize_blob (s : List Nat) : Option (List Nat × List Nat) :=
  match read_compact_size s with
  | none => none
  | some (size, rest) => some (rest.take size, rest.drop size)

/-- `serialize_sequence`, generic over the element serializer exactly as
the Python function is generic over objects providing `serialize`: a
compact-size count followed by the concatenated element
serializations, accumulated left to right. -/
def serialize_sequence {α : Type} (ser : α → List Nat) (seq : List α) : List Nat :=
  seq.foldl (fun b o => b ++ ser o) (write_compact_size seq.length)

theorem foldl_append_eq {α : Type} (ser : α → List Nat) :
    ∀ (seq : List α) (acc : List Nat),
      seq.foldl (fun b o => b ++ ser o) acc = acc ++ (seq.map ser).flatten
  | [], acc => by simp
  | x :: xs, acc => by
    simp only [List.foldl_cons, List.map_cons, List.flatten_cons]
    rw [foldl_append_eq ser xs (acc ++ ser x), List.append_assoc]

theorem serialize_sequence_eq {α : Type} (ser : α → List Nat) (seq : List α) :
    serialize_sequence ser seq = write_compact_size seq.length ++ (seq.map ser).flatten :=
  foldl_append_eq ser seq _

theorem read_write_compact_size (n : Nat) (hn : n < 2 ^ 64) (rest : List Nat) :
    read_compact_size (write_compact_size n ++ rest) = some (n, rest) := by
  rw [write_compact_size]
  split_ifs with h1 h2 h3
  · have e1 : ¬ n = 253 := by omega
    have e2 : ¬ n = 254 := by omega
    have e3 : ¬ n = 255 := by omega
    simp [read_compact_size, e1, e2, e3]
  · simp only [List.cons_append, read_compact_size, readExact_append (natToLE_length 2 n),
      if_pos rfl, leToNat_natToLE]
    rw [Nat.mod_eq_of_lt (by omega)]
    simp
  · have d1 : ¬ (254 : Nat) = 253 := by omega
    simp only [List.cons_append, read_compact_size, readExact_append (natToLE_length 4 n),
      if_neg d1, if_pos rfl, leToNat_natToLE]
    rw [Nat.mod_eq_of_lt (by omega)]
    simp
  · have d1 : ¬ (255 : Nat) = 253 := by omega
    have d2 : ¬ (255 : Nat) = 254 := by omega
    simp only [List.cons_append, read_compact_size, readExact_append (natToLE_length 8 n),
      if_neg d1, if_neg d2, if_pos rfl, leToNat_natToLE]
    rw [Nat.mod_eq_of_lt (by omega)]
    simp

/-- The cryptographic collaborators of the core, black boxes in the
source (spec treats double-SHA256 `Hash`, Schnorr sign, public-key
derivation and WIF decoding as external): `sha256d` is
`bitcoin.Hash`, `schnorrSign privkey msg` is `schnorr.sign`,
`pubFromPriv scalar compressed` is `public_key_from_private_key`
composed with the hex decoding done at its call site, and
`wifDecode wif` is `bitcoin.deserialize_privkey` returning
`(txin_type, privkey_bytes, compressed)`. -/
structure Crypto where
  sha256d : List Nat → List Nat
  schnorrSign : List Nat → List Nat → List Nat
  pubFromPriv : List Nat → Bool → List Nat
  wifDecode : String → String × List Nat × Bool

/-- Modelled from the spec: `electroncash/uint256.py` is absent from the
source tree (only its unit tests and callers are present).  Per spec §3
a Blob256 stores a fixed 32-byte identifier, is serialized exactly as
stored, and is compared byte-wise on the reversed byte order. -/
structure UInt256 where
  data : List Nat
deriving DecidableEq

/-- Modelled from the spec: serialization returns the stored bytes in
storage order (test_uint256: `UInt256(data).serialize() == data`). -/
def UInt256.serialize (u : UInt256) : List Nat := u.data

/-- Modelled from the spec: deserialization reads the 32 stored bytes
from the stream. -/
def UInt256.deserialize (s : List Nat) : Option (UInt256 × List Nat) :=
  match readExact 32 s with
  | none => none
  | some (bs, rest) => some (⟨bs⟩, rest)

/-- Modelled from the spec: BaseBlob comparison compares the bytes in
reversed order (test_uint256: "The bytes are compared backwards"). -/
def UInt256.le (a b : UInt256) : Prop := a.data.reverse ≤ b.data.reverse

/-- Strict version of the reversed-byte comparison. -/
def UInt256.lt (a b : UInt256) : Prop := a.data.reverse < b.data.reverse

instance : DecidableRel UInt256.le := fun a b =>
  inferInstanceAs (Decidable (a.data.reverse ≤ b.data.reverse))

/-- `PublicKey` from `avalanche/serialize.py` / `avaproof.py`: wraps the
raw SEC1 key bytes; serialized as a compact-size-prefixed blob; equality
is byte equality of the key material. -/
structure PublicKey where
  keydata : List Nat
deriving DecidableEq

def PublicKey.serialize (pk : PublicKey) : List Nat := serialize_blob pk.keydata

def PublicKey.deserialize (s : List Nat) : Option (PublicKey × List Nat) :=
  match deserialize_blob s with
  | none => none
  | some (bs, rest) => some (⟨bs⟩, rest)

/-- `Key` (a private key): 32-byte scalar plus compression flag. -/
structure Key where
  keydata : List Nat
  compressed : Bool
deriving DecidableEq

def Key.sign_schnorr (C : Crypto) (k : Key) (message_hash : List Nat) : List Nat :=
  C.schnorrSign k.keydata message_hash

def Key.get_pubkey (C : Crypto) (k : Key) : PublicKey :=
  ⟨C.pubFromPriv k.keydata k.compressed⟩

/-- `COutPoint`: transaction id plus a 4-byte little-endian vout. -/
structure COutPoint where
  txid : UInt256
  n : Nat
deriving DecidableEq

def COutPoint.serialize (o : COutPoint) : List Nat :=
  o.txid.serialize ++ natToLE 4 o.n

def COutPoint.deserialize (s : List Nat) : Option (COutPoint × List Nat) :=
  match UInt256.deserialize s with
  | none => none
  | some (txid, rest) =>
    match readExact 4 rest with
    | none => none
    | some (nb, rest2) => some (⟨txid, leToNat nb⟩, rest2)

/-- `Stake` from `avaproof.py`: one UTXO commitment. -/
structure Stake where
  utxo : COutPoint
  amount : Int
  height : Nat
  pubkey : PublicKey
  is_coinbase : Bool
deriving DecidableEq

/-- `Stake.serialize`: outpoint, then `struct.pack("qI", amount,
height << 1 | is_coinbase)`, then the compact-size-prefixed public key.
The `"qI"` format uses the platform byte order with no padding between
the 8-byte and 4-byte fields; the supported platforms are little-endian
(the little-endian layout is the one checked against the node test
vectors in `tests/test_avaproof.py`), so both fields are modelled
little-endian. -/
def Stake.serialize (s : Stake) : List Nat :=
  s.utxo.serialize ++
    (intToLE 8 s.amount ++
      natToLE 4 (s.height <<< 1 ||| (if s.is_coinbase then 1 else 0))) ++
    s.pubkey.serialize

/-- `stake_id`, computed in `Stake.__init__` as the double-SHA256 of the
stake serialization. -/
def Stake.stake_id (C : Crypto) (s : Stake) : UInt256 := ⟨C.sha256d s.serialize⟩

/-- `Stake.get_hash`: double-SHA256 of the commitment followed by the
serialized stake. -/
def Stake.get_hash (C : Crypto) (s : Stake) (commitment : List Nat) : List Nat :=
  C.sha256d (commitment ++ s.serialize)

/-- `compute_limited_proof_id` from `avaproof.py`. -/
def compute_limited_proof_id (C : Crypto) (sequence : Nat) (expiration_time : Int)
    (stakes : List Stake) (payout_script_pubkey : List Nat) : UInt256 :=
  ⟨C.sha256d ((natToLE 8 sequence ++ intToLE 8 expiration_time) ++
    serialize_blob payout_script_pubkey ++
    serialize_sequence Stake.serialize stakes)⟩

/-- `compute_proof_id` from `avaproof.py`: the limited id together with
the double-SHA256 of its serialization followed by the master public
key serialization. -/
def compute_proof_id (C : Crypto) (sequence : Nat) (expiration_time : Int)
    (stakes : List Stake) (master : PublicKey) (payout_script_pubkey : List Nat) :
    UInt256 × UInt256 :=
  let ltd_id := compute_limited_proof_id C sequence expiration_time stakes payout_script_pubkey
  (ltd_id, ⟨C.sha256d (ltd_id.serialize ++ master.serialize)⟩)

/-- `SignedStake`: a stake with its 64-byte Schnorr signature. -/
structure SignedStake where
  stake : Stake
  sig : List Nat
deriving DecidableEq

def SignedStake.serialize (ss : SignedStake) : List Nat :=
  ss.stake.serialize ++ ss.sig

/-- `StakeSigner`: a stake together with the private key that will sign
it during `build()`. -/
structure StakeSigner where
  stake : Stake
  key : Key
deriving DecidableEq

def StakeSigner.sign (C : Crypto) (sg : StakeSigner) (commitment : List Nat) : SignedStake :=
  ⟨sg.stake, Key.sign_schnorr C sg.key (Stake.get_hash C sg.stake commitment)⟩

/-- `Proof`: the immutable value object.  `limitedid` and `proofid` are
stored at construction by `Proof.__init__` (see `mkProof`). -/
structure Proof where
  sequence : Nat
  expiration_time : Int
  master_pub : PublicKey
  stakes : List SignedStake
  payout_script_pubkey : List Nat
  signature : List Nat
  limitedid : UInt256
  proofid : UInt256
deriving DecidableEq

/-- `Proof.__init__`: stores the given fields and recomputes the two ids
from them with `compute_proof_id`. -/
def mkProof (C : Crypto) (sequence : Nat) (expiration_time : Int) (master_pub : PublicKey)
    (signed_stakes : List SignedStake) (payout_script_pubkey : List Nat)
    (signature : List Nat) : Proof :=
  let ids := compute_proof_id C sequence expiration_time
    (signed_stakes.map (fun ss => ss.stake)) master_pub payout_script_pubkey
  ⟨sequence, expiration_time, master_pub, signed_stakes, payout_script_pubkey,
    signature, ids.1, ids.2⟩

/-- `Proof.serialize`. -/
def Proof.serialize (p : Proof) : List Nat :=
  (natToLE 8 p.sequence ++ intToLE 8 p.expiration_time) ++
    p.master_pub.serialize ++
    serialize_sequence SignedStake.serialize p.stakes ++
    serialize_blob p.payout_script_pubkey ++
    p.signature

/-- `ProofBuilder`: accumulates stake signers; `master_pub` is derived
from the master key in `__init__`. -/
structure ProofBuilder where
  sequence : Nat
  expiration_time : Int
  master : Key
  master_pub : PublicKey
  payout_script_pubkey : List Nat
  stake_signers : List StakeSigner

/-- `ProofBuilder.__init__`. -/
def mkProofBuilder (C : Crypto) (sequence : Nat) (expiration_time : Int) (master : Key)
    (payout_script_pubkey : List Nat) : ProofBuilder :=
  ⟨sequence, expiration_time, master, Key.get_pubkey C master, payout_script_pubkey, []⟩

/-- The ordering used by `add_utxo` when sorting the signer list: the
rich comparison of the `UInt256` stake ids, which compares the id bytes
in reversed order. -/
def stakeSignerLe (C : Crypto) : StakeSigner → StakeSigner → Prop :=
  fun a b => UInt256.le (Stake.stake_id C a.stake) (Stake.stake_id C b.stake)

instance (C : Crypto) : DecidableRel (stakeSignerLe C) := fun a b =>
  inferInstanceAs
    (Decidable (UInt256.le (Stake.stake_id C a.stake) (Stake.stake_id C b.stake)))

/-- `ProofBuilder.add_utxo`: decode the WIF key, derive its public key,
build the stake, append the (stake, key) pair and re-sort the list by
stake id (`list.sort` is a stable ascending sort; `insertionSort` with a
total `le` relation is the same stable ascending sort). -/
def ProofBuilder.add_utxo (C : Crypto) (b : ProofBuilder) (txid : UInt256) (vout : Nat)
    (amount : Int) (height : Nat) (wif_privkey : String) (is_coinbase : Bool) :
    ProofBuilder :=
  let d := C.wifDecode wif_privkey
  let privkey : Key := ⟨d.2.1, d.2.2⟩
  let utxo : COutPoint := ⟨txid, vout⟩
  let stake : Stake := ⟨utxo, amount, height, Key.get_pubkey C privkey, is_coinbase⟩
  { b with stake_signers :=
      List.insertionSort (stakeSignerLe C) (b.stake_signers ++ [⟨stake, privkey⟩]) }

/-- `ProofBuilder.build`. -/
def ProofBuilder.build (C : Crypto) (b : ProofBuilder) : Proof :=
  let ids := compute_proof_id C b.sequence b.expiration_time
    (b.stake_signers.map (fun sg => sg.stake)) b.master_pub b.payout_script_pubkey
  let signature := Key.sign_schnorr C b.master ids.1.serialize
  let stake_commitment_data := intToLE 8 b.expiration_time ++ b.master_pub.serialize
  let stake_commitment := C.sha256d stake_commitment_data
  let signed_stakes := b.stake_signers.map (fun sg => StakeSigner.sign C sg stake_commitment)
  mkProof C b.sequence b.expiration_time b.master_pub signed_stakes
    b.payout_script_pubkey signature

/-- `ProofBuilder.build` as a state transformer: the Python method
assigns to no attribute of `self`, so the post-state carries every field
over unchanged. -/
def ProofBuilder.buildM (C : Crypto) (b : ProofBuilder) : ProofBuilder × Proof :=
  (⟨b.sequence, b.expiration_time, b.master, b.master_pub, b.payout_script_pubkey,
    b.stake_signers⟩, ProofBuilder.build C b)

end ElectrumABC

namespace ElectrumABC

/-- Claim C5: `write_compact_size` produces the canonical smallest-marker
encoding (one byte below 253; marker 253 and a 2-byte little-endian value
below 2^16; marker 254 and a 4-byte value below 2^32; marker 255 and an
8-byte value otherwise), and `read_compact_size` applied to that encoding
followed by any trailing bytes returns the value and consumes exactly the
encoding. -/
theorem compact_size_canonical_roundtrip (n : Nat) (rest : List Nat) (hn : n < 2 ^ 64) :
    (n < 253 → write_compact_size n = [n]) ∧
    (253 ≤ n → n < 2 ^ 16 → write_compact_size n = 253 :: natToLE 2 n) ∧
    (2 ^ 16 ≤ n → n < 2 ^ 32 → write_compact_size n = 254 :: natToLE 4 n) ∧
    (2 ^ 32 ≤ n → write_compact_size n = 255 :: natToLE 8 n) ∧
    read_compact_size (write_compact_size n ++ rest) = some (n, rest) := by
  refine ⟨fun h => ?_, fun h1 h2 => ?_, fun h1 h2 => ?_, fun h => ?_,
    read_write_compact_size n hn rest⟩
  · rw [write_compact_size, if_pos h]
  · rw [write_compact_size, if_neg (by omega), if_pos (by norm_num at h2; omega)]
  · rw [write_compact_size, if_neg (by norm_num at h1; omega),
      if_neg (by norm_num at h1; omega), if_pos (by norm_num at h2; omega)]
  · rw [write_compact_size, if_neg (by norm_num at h; omega),
      if_neg (by norm_num at h; omega), if_neg (by norm_num at h; omega)]

theorem compact_size_canonical_roundtrip_witness :
    (300 < 2 ^ 64) ∧
      ((300 < 253 → write_compact_size 300 = [300]) ∧
      (253 ≤ 300 → 300 < 2 ^ 16 → write_compact_size 300 = 253 :: natToLE 2 300) ∧
      (2 ^ 16 ≤ 300 → 300 < 2 ^ 32 → write_compact_size 300 = 254 :: natToLE 4 300) ∧
      (2 ^ 32 ≤ 300 → write_compact_size 300 = 255 :: natToLE 8 300) ∧
      read_compact_size (write_compact_size 300 ++ [7, 9]) = some (300, [7, 9])) :=
  ⟨by norm_num, compact_size_canonical_roundtrip 300 [7, 9] (by norm_num)⟩

/-- Claim C10: `read_compact_size` accepts non-canonical encodings: the
bytes `0xFD 0x05 0x00` decode to 5 even though the canonical encoding of
5 is the single byte `0x05`, so two distinct byte strings decode to the
same value. -/
theorem read_compact_size_noncanonical :
    read_compact_size [253, 5, 0] = some (5, []) ∧
    read_compact_size [5] = some (5, []) ∧
    write_compact_size 5 = [5] ∧
    ([253, 5, 0] : List Nat) ≠ [5] := by
  refine ⟨by decide, by decide, by decide, by decide⟩

/-- Claim C6 (evaluation at the failing input): `read_compact_size` does
fail on a stream shorter than its marker byte prescribes, but
`deserialize_blob` on a stream declaring a 2-byte blob with only one
byte available silently returns the single available byte instead of
failing. -/
theorem deserialize_blob_truncation_behavior :
    read_compact_size [253, 1] = none ∧
    deserialize_blob [2, 170] = some ([170], []) := by
  refine ⟨by decide, by decide⟩

/-- A concrete crypto bundle used to instantiate hypotheses of the
universally quantified theorems at concrete inputs. -/
def cryptoZ : Crypto :=
  ⟨fun _ => List.replicate 32 0, fun _ _ => List.replicate 64 0,
   fun k _ => k, fun _ => ("", [7], true)⟩

/-- Claim C1: `compute_limited_proof_id` is the double-SHA256 of the
8-byte little-endian sequence, the 8-byte little-endian expiration
time, the compact-size-length-prefixed payout script, and the
compact-size-count-prefixed concatenation of the stakes\'
serializations; and `compute_proof_id` returns that limited id together
with the double-SHA256 of the limited id\'s serialized bytes followed by
the master public key\'s compact-size-prefixed serialization. -/
theorem proof_id_commitments (C : Crypto) (sequence : Nat) (expiration_time : Int)
    (payout_script_pubkey : List Nat) (stakes : List Stake) (master : PublicKey)
    (_hseq : sequence < 2 ^ 64)
    (_hexp : -(2 ^ 63) ≤ expiration_time ∧ expiration_time < 2 ^ 63) :
    compute_limited_proof_id C sequence expiration_time stakes payout_script_pubkey =
      ⟨C.sha256d ((natToLE 8 sequence ++ intToLE 8 expiration_time) ++
        (write_compact_size payout_script_pubkey.length ++ payout_script_pubkey) ++
        (write_compact_size stakes.length ++ (stakes.map Stake.serialize).flatten))⟩ ∧
    compute_proof_id C sequence expiration_time stakes master payout_script_pubkey =
      (compute_limited_proof_id C sequence expiration_time stakes payout_script_pubkey,
       ⟨C.sha256d
         ((compute_limited_proof_id C sequence expiration_time stakes
            payout_script_pubkey).serialize ++
          (write_compact_size master.keydata.length ++ master.keydata))⟩) := by
  constructor
  · rw [compute_limited_proof_id, serialize_sequence_eq]
    rfl
  · rfl

theorem proof_id_commitments_witness :
    (3 < 2 ^ 64) ∧ (-(2 ^ 63) ≤ (5 : Int) ∧ (5 : Int) < 2 ^ 63) ∧
    (compute_limited_proof_id cryptoZ 3 5 [] [] =
      ⟨cryptoZ.sha256d ((natToLE 8 3 ++ intToLE 8 5) ++
        (write_compact_size (List.length ([] : List Nat)) ++ []) ++
        (write_compact_size (List.length ([] : List Stake)) ++
          ((([] : List Stake)).map Stake.serialize).flatten))⟩ ∧
    compute_proof_id cryptoZ 3 5 [] ⟨[2]⟩ [] =
      (compute_limited_proof_id cryptoZ 3 5 [] [],
       ⟨cryptoZ.sha256d ((compute_limited_proof_id cryptoZ 3 5 [] []).serialize ++
          (write_compact_size (PublicKey.mk [2]).keydata.length ++
            (PublicKey.mk [2]).keydata))⟩)) :=
  ⟨by norm_num, ⟨by norm_num, by norm_num⟩,
   proof_id_commitments cryptoZ 3 5 [] [] ⟨[2]⟩ (by norm_num) ⟨by norm_num, by norm_num⟩⟩

/-- Claim C2: `ProofBuilder.build` computes the stake commitment as the
double-SHA256 of the 8-byte little-endian expiration time followed by
the master public key\'s serialization, and signs, with each stake\'s own
private key, the double-SHA256 of the commitment concatenated with the
stake\'s serialization. -/
theorem build_stake_signatures (C : Crypto) (b : ProofBuilder) :
    (ProofBuilder.build C b).stakes =
      b.stake_signers.map (fun sg =>
        ⟨sg.stake,
         C.schnorrSign sg.key.keydata
           (C.sha256d
             (C.sha256d (intToLE 8 b.expiration_time ++
                (write_compact_size b.master_pub.keydata.length ++ b.master_pub.keydata)) ++
              sg.stake.serialize))⟩) := rfl

/-- Claim C3: `Stake.serialize` emits the outpoint (txid bytes then
4-byte little-endian vout), the 8-byte little-endian signed amount, the
packed `height << 1 | is_coinbase` as a 4-byte little-endian unsigned
value, and the compact-size-prefixed public key; `Proof.serialize`
emits the 8-byte little-endian sequence, the 8-byte little-endian
signed expiration time, the master public key blob, the
compact-size-counted signed-stake sequence, the payout script blob, and
the master signature, in that order. -/
theorem serialize_layouts :
    (∀ s : Stake, s.utxo.txid.data.length = 32 → s.utxo.n < 2 ^ 32 →
      -(2 ^ 63) ≤ s.amount → s.amount < 2 ^ 63 → s.height < 2 ^ 31 →
      Stake.serialize s =
        s.utxo.txid.data ++ natToLE 4 s.utxo.n ++ intToLE 8 s.amount ++
          natToLE 4 (s.height <<< 1 ||| (if s.is_coinbase then 1 else 0)) ++
          (write_compact_size s.pubkey.keydata.length ++ s.pubkey.keydata)) ∧
    (∀ p : Proof, p.sequence < 2 ^ 64 →
      -(2 ^ 63) ≤ p.expiration_time → p.expiration_time < 2 ^ 63 →
      p.signature.length = 64 →
      Proof.serialize p =
        natToLE 8 p.sequence ++ intToLE 8 p.expiration_time ++
          (write_compact_size p.master_pub.keydata.length ++ p.master_pub.keydata) ++
          (write_compact_size p.stakes.length ++ (p.stakes.map SignedStake.serialize).flatten) ++
          (write_compact_size p.payout_script_pubkey.length ++ p.payout_script_pubkey) ++
          p.signature) := by
  constructor
  · intro s _ _ _ _ _
    simp only [Stake.serialize, COutPoint.serialize, UInt256.serialize,
      PublicKey.serialize, serialize_blob, List.append_assoc]
  · intro p _ _ _ _
    simp only [Proof.serialize, PublicKey.serialize, serialize_blob,
      serialize_sequence_eq, List.append_assoc]

/-- A concrete stake used to instantiate `serialize_layouts`. -/
def stakeW : Stake := ⟨⟨⟨List.replicate 32 7⟩, 1⟩, 5, 10, ⟨[2]⟩, false⟩

/-- A concrete proof value used to instantiate `serialize_layouts`. -/
def proofW : Proof := ⟨1, 2, ⟨[2]⟩, [], [], List.replicate 64 0, ⟨[]⟩, ⟨[]⟩⟩

theorem serialize_layouts_witness :
    (stakeW.utxo.txid.data.length = 32 ∧ stakeW.utxo.n < 2 ^ 32 ∧
      -(2 ^ 63) ≤ stakeW.amount ∧ stakeW.amount < 2 ^ 63 ∧ stakeW.height < 2 ^ 31 ∧
      Stake.serialize stakeW =
        stakeW.utxo.txid.data ++ natToLE 4 stakeW.utxo.n ++ intToLE 8 stakeW.amount ++
          natToLE 4 (stakeW.height <<< 1 ||| (if stakeW.is_coinbase then 1 else 0)) ++
          (write_compact_size stakeW.pubkey.keydata.length ++ stakeW.pubkey.keydata)) ∧
    (proofW.sequence < 2 ^ 64 ∧
      -(2 ^ 63) ≤ proofW.expiration_time ∧ proofW.expiration_time < 2 ^ 63 ∧
      proofW.signature.length = 64 ∧
      Proof.serialize proofW =
        natToLE 8 proofW.sequence ++ intToLE 8 proofW.expiration_time ++
          (write_compact_size proofW.master_pub.keydata.length ++ proofW.master_pub.keydata) ++
          (write_compact_size proofW.stakes.length ++
            (proofW.stakes.map SignedStake.serialize).flatten) ++
          (write_compact_size proofW.payout_script_pubkey.length ++
            proofW.payout_script_pubkey) ++
          proofW.signature) :=
  ⟨⟨by decide, by decide, by decide, by decide, by decide,
    serialize_layouts.1 stakeW (by decide) (by decide) (by decide) (by decide) (by decide)⟩,
   ⟨by decide, by decide, by decide, by decide,
    serialize_layouts.2 proofW (by decide) (by decide) (by decide) (by decide)⟩⟩

/-- A concrete builder used for the builder-state counterexample. -/
def builderW : ProofBuilder := mkProofBuilder cryptoZ 0 0 ⟨[1], true⟩ []

/-- Claim C8 is false on the code: after `build()` the builder is not in
a terminal state; a subsequent `add_utxo` still transitions the builder
(here it grows the signer list of a just-built builder). -/
theorem builder_not_single_use :
    (ProofBuilder.add_utxo cryptoZ (ProofBuilder.buildM cryptoZ builderW).1
        ⟨[9]⟩ 0 0 0 "w" false).stake_signers ≠
      (ProofBuilder.buildM cryptoZ builderW).1.stake_signers := by decide

/-- Claim C8 (amended): `build()` has no terminal state: it leaves the
builder exactly as it was, and subsequent `add_utxo` and `build` calls
remain available and behave as before the first `build()` (a repeated
`build` returns the same Proof). -/
theorem builder_reusable_after_build (C : Crypto) (b : ProofBuilder) (txid : UInt256)
    (vout : Nat) (amount : Int) (height : Nat) (wif : String) (cb : Bool) :
    (ProofBuilder.buildM C b).1 = b ∧
    ProofBuilder.add_utxo C (ProofBuilder.buildM C b).1 txid vout amount height wif cb =
      ProofBuilder.add_utxo C b txid vout amount height wif cb ∧
    (ProofBuilder.buildM C (ProofBuilder.buildM C b).1).2 = (ProofBuilder.buildM C b).2 :=
  ⟨rfl, rfl, rfl⟩

/-- Claim C9: `build()` leaves every field of the builder unchanged
(sequence, expiration time, master key, derived master public key,
payout script, stake signers), so two consecutive `build()` calls
return Proofs with identical limitedid and proofid. -/
theorem build_preserves_builder_fields (C : Crypto) (b : ProofBuilder) :
    ((ProofBuilder.buildM C b).1.sequence = b.sequence ∧
     (ProofBuilder.buildM C b).1.expiration_time = b.expiration_time ∧
     (ProofBuilder.buildM C b).1.master = b.master ∧
     (ProofBuilder.buildM C b).1.master_pub = b.master_pub ∧
     (ProofBuilder.buildM C b).1.payout_script_pubkey = b.payout_script_pubkey ∧
     (ProofBuilder.buildM C b).1.stake_signers = b.stake_signers) ∧
    (ProofBuilder.buildM C (ProofBuilder.buildM C b).1).2.limitedid =
      (ProofBuilder.buildM C b).2.limitedid ∧
    (ProofBuilder.buildM C (ProofBuilder.buildM C b).1).2.proofid =
      (ProofBuilder.buildM C b).2.proofid :=
  ⟨⟨rfl, rfl, rfl, rfl, rfl, rfl⟩, rfl, rfl⟩

instance (C : Crypto) : IsTotal StakeSigner (stakeSignerLe C) :=
  ⟨fun a b => le_total (Stake.stake_id C a.stake).data.reverse
    (Stake.stake_id C b.stake).data.reverse⟩

instance (C : Crypto) : IsTrans StakeSigner (stakeSignerLe C) :=
  ⟨fun _ _ _ h1 h2 => le_trans h1 h2⟩

/-- The six arguments of one `add_utxo` call, bundled so that a list of
calls can be folded over. -/
structure UtxoArg where
  txid : UInt256
  vout : Nat
  amount : Int
  height : Nat
  wif_privkey : String
  is_coinbase : Bool
deriving DecidableEq

/-- The `StakeSigner` that `add_utxo` appends for the given call
arguments. -/
def signerOfUtxo (C : Crypto) (u : UtxoArg) : StakeSigner :=
  let d := C.wifDecode u.wif_privkey
  let privkey : Key := ⟨d.2.1, d.2.2⟩
  ⟨⟨⟨u.txid, u.vout⟩, u.amount, u.height, Key.get_pubkey C privkey, u.is_coinbase⟩, privkey⟩

/-- A sequence of `add_utxo` calls on a builder. -/
def addUtxos (C : Crypto) (b : ProofBuilder) (utxos : List UtxoArg) : ProofBuilder :=
  utxos.foldl (fun acc u =>
    ProofBuilder.add_utxo C acc u.txid u.vout u.amount u.height u.wif_privkey u.is_coinbase) b

theorem addUtxos_cons (C : Crypto) (b : ProofBuilder) (u : UtxoArg) (l : List UtxoArg) :
    addUtxos C b (u :: l) =
      addUtxos C (ProofBuilder.add_utxo C b u.txid u.vout u.amount u.height
        u.wif_privkey u.is_coinbase) l := rfl

theorem addUtxos_signers_perm (C : Crypto) : ∀ (l : List UtxoArg) (b : ProofBuilder),
    List.Perm (addUtxos C b l).stake_signers (b.stake_signers ++ l.map (signerOfUtxo C))
  | [], b => by simp [addUtxos]
  | u :: l, b => by
    rw [addUtxos_cons]
    refine (addUtxos_signers_perm C l _).trans ?_
    refine (List.Perm.append_right (l.map (signerOfUtxo C))
      (List.perm_insertionSort (stakeSignerLe C)
        (b.stake_signers ++ [signerOfUtxo C u]))).trans ?_
    simp

theorem addUtxos_signers_sorted (C : Crypto) : ∀ (l : List UtxoArg) (b : ProofBuilder),
    List.Sorted (stakeSignerLe C) b.stake_signers →
    List.Sorted (stakeSignerLe C) (addUtxos C b l).stake_signers
  | [], _, h => h
  | u :: l, b, _ => by
    rw [addUtxos_cons]
    exact addUtxos_signers_sorted C l _
      (List.sorted_insertionSort (stakeSignerLe C) _)

theorem addUtxos_carries_fields (C : Crypto) : ∀ (l : List UtxoArg) (b : ProofBuilder),
    addUtxos C b l = ⟨b.sequence, b.expiration_time, b.master, b.master_pub,
      b.payout_script_pubkey, (addUtxos C b l).stake_signers⟩
  | [], _ => rfl
  | u :: l, b => by
    rw [addUtxos_cons]
    exact addUtxos_carries_fields C l _

/-- Two sorted lists that are permutations of each other and have
pairwise distinct sort keys are equal. -/
theorem sorted_perm_eq_of_key_nodup {α κ : Type} [LinearOrder κ] (k : α → κ)
    {l₁ l₂ : List α} (hp : List.Perm l₁ l₂)
    (hs₁ : List.Sorted (fun a b => k a ≤ k b) l₁)
    (hs₂ : List.Sorted (fun a b => k a ≤ k b) l₂)
    (hn : (l₁.map k).Nodup) : l₁ = l₂ := by
  have hn1 : l₁.Pairwise (fun a b => k a ≠ k b) := List.pairwise_map.mp hn
  have hn2 : l₂.Pairwise (fun a b => k a ≠ k b) :=
    (hp.pairwise_iff (fun h e => h e.symm)).mp hn1
  have hlt₁ : l₁.Pairwise (fun a b => k a < k b) :=
    (hn1.and hs₁).imp (fun h => lt_of_le_of_ne h.2 h.1)
  have hlt₂ : l₂.Pairwise (fun a b => k a < k b) :=
    (hn2.and hs₂).imp (fun h => lt_of_le_of_ne h.2 h.1)
  haveI : IsAntisymm α (fun a b => k a < k b) :=
    ⟨fun a b h1 h2 => absurd (lt_trans h1 h2) (lt_irrefl _)⟩
  exact List.eq_of_perm_of_sorted hp hlt₁ hlt₂

/-- Building a proof from a fresh builder after adding the given UTXOs. -/
def builtFromUtxos (C : Crypto) (sequence : Nat) (expiration_time : Int) (master : Key)
    (payout_script_pubkey : List Nat) (utxos : List UtxoArg) : Proof :=
  ProofBuilder.build C
    (addUtxos C (mkProofBuilder C sequence expiration_time master payout_script_pubkey) utxos)

end ElectrumABC

namespace ElectrumABC

/-- Claim C4: for a fixed sequence, expiration time, master key and
payout script, adding a set of UTXOs with pairwise distinct stake ids in
any permutation and then building yields byte-identical serialized
Proofs with identical limitedid and proofid, and the signed stakes in
the resulting Proof are sorted ascending by stake id (the reversed-byte
UInt256 order used by the builder). -/
theorem build_order_independent (C : Crypto) (sequence : Nat) (expiration_time : Int)
    (master : Key) (payout_script_pubkey : List Nat) (l1 l2 : List UtxoArg)
    (hperm : List.Perm l1 l2)
    (hids : (l1.map (fun u => Stake.stake_id C (signerOfUtxo C u).stake)).Nodup) :
    Proof.serialize (builtFromUtxos C sequence expiration_time master payout_script_pubkey l1) =
      Proof.serialize (builtFromUtxos C sequence expiration_time master payout_script_pubkey l2) ∧
    (builtFromUtxos C sequence expiration_time master payout_script_pubkey l1).limitedid =
      (builtFromUtxos C sequence expiration_time master payout_script_pubkey l2).limitedid ∧
    (builtFromUtxos C sequence expiration_time master payout_script_pubkey l1).proofid =
      (builtFromUtxos C sequence expiration_time master payout_script_pubkey l2).proofid ∧
    List.Sorted (fun x y : SignedStake =>
        UInt256.le (Stake.stake_id C x.stake) (Stake.stake_id C y.stake))
      (builtFromUtxos C sequence expiration_time master payout_script_pubkey l1).stakes := by
  have hkey : ∀ u : UtxoArg,
      Stake.stake_id C (signerOfUtxo C u).stake = Stake.stake_id C (signerOfUtxo C u).stake :=
    fun _ => rfl
  set b0 := mkProofBuilder C sequence expiration_time master payout_script_pubkey with hb0
  have h1 := addUtxos_signers_perm C l1 b0
  have h2 := addUtxos_signers_perm C l2 b0
  have hb0s : b0.stake_signers = ([] : List StakeSigner) := rfl
  rw [hb0s, List.nil_append] at h1 h2
  have hs1 : List.Sorted (stakeSignerLe C) (addUtxos C b0 l1).stake_signers :=
    addUtxos_signers_sorted C l1 b0 (by rw [hb0s]; exact List.sorted_nil)
  have hs2 : List.Sorted (stakeSignerLe C) (addUtxos C b0 l2).stake_signers :=
    addUtxos_signers_sorted C l2 b0 (by rw [hb0s]; exact List.sorted_nil)
  have hp12 : List.Perm (addUtxos C b0 l1).stake_signers (addUtxos C b0 l2).stake_signers :=
    h1.trans ((hperm.map (signerOfUtxo C)).trans h2.symm)
  have hkeyfun : (fun sg : StakeSigner => (Stake.stake_id C sg.stake).data.reverse) ∘
      signerOfUtxo C =
      fun u => ((Stake.stake_id C (signerOfUtxo C u).stake).data.reverse) := rfl
  have hinj : Function.Injective (fun u : UInt256 => u.data.reverse) := by
    intro a b h
    cases a
    cases b
    simp only [List.reverse_injective.eq_iff, UInt256.mk.injEq] at h ⊢
    exact h
  have hn1 : ((addUtxos C b0 l1).stake_signers.map
      (fun sg : StakeSigner => (Stake.stake_id C sg.stake).data.reverse)).Nodup := by
    refine ((h1.map (fun sg : StakeSigner =>
      (Stake.stake_id C sg.stake).data.reverse)).nodup_iff).mpr ?_
    rw [List.map_map, hkeyfun]
    have : (fun u : UtxoArg => (Stake.stake_id C (signerOfUtxo C u).stake).data.reverse) =
        (fun v : UInt256 => v.data.reverse) ∘
          (fun u : UtxoArg => Stake.stake_id C (signerOfUtxo C u).stake) := rfl
    rw [this, ← List.map_map]
    exact hids.map hinj
  have heq : (addUtxos C b0 l1).stake_signers = (addUtxos C b0 l2).stake_signers :=
    sorted_perm_eq_of_key_nodup
      (fun sg : StakeSigner => (Stake.stake_id C sg.stake).data.reverse)
      hp12 hs1 hs2 hn1
  have hbeq : addUtxos C b0 l1 = addUtxos C b0 l2 := by
    rw [addUtxos_carries_fields C l1 b0, addUtxos_carries_fields C l2 b0, heq]
  have hbuild : builtFromUtxos C sequence expiration_time master payout_script_pubkey l1 =
      builtFromUtxos C sequence expiration_time master payout_script_pubkey l2 := by
    rw [builtFromUtxos, builtFromUtxos, ← hb0, hbeq]
  refine ⟨by rw [hbuild], by rw [hbuild], by rw [hbuild], ?_⟩
  show List.Sorted _ (ProofBuilder.build C (addUtxos C b0 l1)).stakes
  have hstakes : (ProofBuilder.build C (addUtxos C b0 l1)).stakes =
      (addUtxos C b0 l1).stake_signers.map
        (fun sg => StakeSigner.sign C sg
          (C.sha256d (intToLE 8 (addUtxos C b0 l1).expiration_time ++
            (addUtxos C b0 l1).master_pub.serialize))) := rfl
  rw [hstakes]
  exact List.Pairwise.map _ (fun a b h => h) hs1

/-- A concrete crypto bundle whose hash is injective on the inputs used
below (identity), so that distinct stakes get distinct stake ids. -/
def cryptoI : Crypto :=
  ⟨fun bs => bs, fun k m => k ++ m, fun k _ => k, fun w => (w, [1], true)⟩

/-- Concrete `add_utxo` arguments for the order-independence witness. -/
def utxoA : UtxoArg := ⟨⟨[1]⟩, 0, 0, 0, "a", false⟩

/-- Concrete `add_utxo` arguments for the order-independence witness. -/
def utxoB : UtxoArg := ⟨⟨[2]⟩, 0, 0, 0, "a", false⟩

theorem build_order_independent_witness :
    List.Perm [utxoA, utxoB] [utxoB, utxoA] ∧
    (([utxoA, utxoB].map
      (fun u => Stake.stake_id cryptoI (signerOfUtxo cryptoI u).stake)).Nodup) ∧
    (Proof.serialize (builtFromUtxos cryptoI 1 2 ⟨[3], true⟩ [] [utxoA, utxoB]) =
       Proof.serialize (builtFromUtxos cryptoI 1 2 ⟨[3], true⟩ [] [utxoB, utxoA]) ∧
     (builtFromUtxos cryptoI 1 2 ⟨[3], true⟩ [] [utxoA, utxoB]).limitedid =
       (builtFromUtxos cryptoI 1 2 ⟨[3], true⟩ [] [utxoB, utxoA]).limitedid ∧
     (builtFromUtxos cryptoI 1 2 ⟨[3], true⟩ [] [utxoA, utxoB]).proofid =
       (builtFromUtxos cryptoI 1 2 ⟨[3], true⟩ [] [utxoB, utxoA]).proofid ∧
     List.Sorted (fun x y : SignedStake =>
         UInt256.le (Stake.stake_id cryptoI x.stake) (Stake.stake_id cryptoI y.stake))
       (builtFromUtxos cryptoI 1 2 ⟨[3], true⟩ [] [utxoA, utxoB]).stakes) :=
  ⟨by decide, by decide,
   build_order_independent cryptoI 1 2 ⟨[3], true⟩ [] [utxoA, utxoB] [utxoB, utxoA]
     (by decide) (by decide)⟩

/-- Every element of the list is a byte value. -/
def isBytes (l : List Nat) : Prop := ∀ b ∈ l, b < 256

instance : DecidablePred isBytes := fun l => List.decidableBAll _ l

/-- Lowercase hex digit for a value below 16, as produced by Python
`bytes.hex()`. -/
def hexDigitChar (n : Nat) : Char :=
  if n < 10 then Char.ofNat (48 + n) else Char.ofNat (97 + n - 10)

/-- Hex rendering of a byte string (`bytes.hex()`): two lowercase hex
digits per byte, high nibble first. -/
def bytesToHex (bs : List Nat) : List Char :=
  (bs.map (fun b => [hexDigitChar (b / 16), hexDigitChar (b % 16)])).flatten

/-- Numeric value of one hex digit as accepted by `bytes.fromhex`
(digits, lowercase and uppercase letters). -/
def hexDigitVal (c : Char) : Option Nat :=
  if 48 ≤ c.toNat ∧ c.toNat ≤ 57 then some (c.toNat - 48)
  else if 97 ≤ c.toNat ∧ c.toNat ≤ 102 then some (c.toNat - 87)
  else if 65 ≤ c.toNat ∧ c.toNat ≤ 70 then some (c.toNat - 55)
  else none

/-- `bytes.fromhex`: consume the characters two at a time, failing on an
odd count or a character that is not a hex digit. -/
def bytesFromHex : List Char → Option (List Nat)
  | [] => some []
  | [_] => none
  | c1 :: c2 :: rest =>
    match hexDigitVal c1, hexDigitVal c2, bytesFromHex rest with
    | some h, some l, some tail => some ((16 * h + l) :: tail)
    | _, _, _ => none

theorem hexDigitVal_hexDigitChar : ∀ n : Nat, n < 16 → hexDigitVal (hexDigitChar n) = some n := by
  decide

theorem bytesFromHex_bytesToHex : ∀ (bs : List Nat), isBytes bs →
    bytesFromHex (bytesToHex bs) = some bs
  | [], _ => rfl
  | b :: bs, h => by
    have hb : b < 256 := h b (List.mem_cons_self b bs)
    have htl : isBytes bs := fun x hx => h x (List.mem_cons_of_mem b hx)
    have h1 : b / 16 < 16 := by omega
    have h2 : b % 16 < 16 := Nat.mod_lt _ (by norm_num)
    have hbeq : 16 * (b / 16) + b % 16 = b := by omega
    simp only [bytesToHex, List.map_cons, List.flatten_cons, List.cons_append,
      List.nil_append]
    show bytesFromHex (hexDigitChar (b / 16) :: hexDigitChar (b % 16) :: bytesToHex bs) = _
    rw [bytesFromHex, hexDigitVal_hexDigitChar _ h1, hexDigitVal_hexDigitChar _ h2,
      bytesFromHex_bytesToHex bs htl]
    show some ((16 * (b / 16) + b % 16) :: bs) = some (b :: bs)
    rw [hbeq]

/-- `to_hex` from `SerializableObject`: hex of the serialized bytes. -/
def COutPoint.to_hex (o : COutPoint) : List Char := bytesToHex o.serialize

/-- `from_hex` from `SerializableObject` (inherited by `COutPoint`):
decode the hex string and deserialize from the resulting stream. -/
def COutPoint.from_hex (s : List Char) : Option COutPoint :=
  match bytesFromHex s with
  | none => none
  | some data =>
    match COutPoint.deserialize data with
    | none => none
    | some (o, _) => some o

/-- `to_hex` from `SerializableObject`, inherited by `PublicKey`. -/
def PublicKey.to_hex (pk : PublicKey) : List Char := bytesToHex pk.serialize

/-- `PublicKey.from_hex`, which OVERRIDES the inherited `from_hex`:
the hex string is the raw key bytes, and the compact-size length prefix
is prepended before deserializing. -/
def PublicKey.from_hex (s : List Char) : Option PublicKey :=
  match bytesFromHex s with
  | none => none
  | some data =>
    match PublicKey.deserialize (write_compact_size data.length ++ data) with
    | none => none
    | some (pk, _) => some pk

end ElectrumABC

namespace ElectrumABC

/-- Claim C7 is false on the code for `PublicKey`: `from_hex` is
overridden to take the hex of the raw key bytes without the compact-size
prefix, so applying it to `to_hex` (hex of the prefixed serialization)
returns a different key. -/
theorem publickey_from_hex_not_inverse :
    PublicKey.from_hex (PublicKey.to_hex ⟨[2]⟩) ≠ some (PublicKey.mk [2]) := by decide

/-- Claim C7 (amended): `to_hex` is the hex rendering of the serialized
bytes for every serializable value; for values whose `from_hex` is the
inherited one (such as `COutPoint`), `from_hex (to_hex x) = x`; but
`PublicKey` overrides `from_hex` to accept the hex of the raw key bytes
without the compact-size prefix, so for it the round-trip identity is
`PublicKey.from_hex (hex of keydata) = pk` while
`PublicKey.from_hex (to_hex pk)` differs from `pk` in general. -/
theorem from_hex_to_hex_roundtrip :
    (∀ o : COutPoint, o.txid.data.length = 32 → isBytes o.txid.data → o.n < 2 ^ 32 →
      COutPoint.from_hex (COutPoint.to_hex o) = some o) ∧
    (∀ pk : PublicKey, isBytes pk.keydata → pk.keydata.length < 2 ^ 64 →
      PublicKey.from_hex (bytesToHex pk.keydata) = some pk ∧
      PublicKey.to_hex pk = bytesToHex pk.serialize) := by
  constructor
  · intro o h32 hb hn
    have hall : isBytes (COutPoint.serialize o) := by
      intro x hx
      rcases List.mem_append.mp hx with hx | hx
      · exact hb x hx
      · exact natToLE_mem_lt 4 o.n x hx
    have hre : readExact 32 (o.txid.data ++ natToLE 4 o.n) =
        some (o.txid.data, natToLE 4 o.n) := readExact_append h32 _
    have hre4 : readExact 4 (natToLE 4 o.n ++ ([] : List Nat)) =
        some (natToLE 4 o.n, []) := readExact_append (natToLE_length 4 o.n) []
    rw [List.append_nil] at hre4
    have hdes : COutPoint.deserialize (COutPoint.serialize o) = some (o, []) := by
      rw [COutPoint.serialize, UInt256.serialize]
      simp only [COutPoint.deserialize, UInt256.deserialize, hre, hre4, leToNat_natToLE]
      rw [Nat.mod_eq_of_lt (by norm_num at hn ⊢; omega)]
    simp only [COutPoint.to_hex, COutPoint.from_hex,
      bytesFromHex_bytesToHex (COutPoint.serialize o) hall, hdes]
  · intro pk hb hlen
    refine ⟨?_, rfl⟩
    have hdes : PublicKey.deserialize
        (write_compact_size pk.keydata.length ++ pk.keydata) = some (pk, []) := by
      simp only [PublicKey.deserialize, deserialize_blob,
        read_write_compact_size pk.keydata.length hlen pk.keydata,
        List.take_length, List.drop_length]
    simp only [PublicKey.from_hex, bytesFromHex_bytesToHex pk.keydata hb, hdes]

/-- A concrete outpoint for the hex round-trip witness. -/
def outW : COutPoint := ⟨⟨List.replicate 32 9⟩, 5⟩

/-- A concrete public key for the hex round-trip witness. -/
def pkW : PublicKey := ⟨[2, 3]⟩

theorem from_hex_to_hex_roundtrip_witness :
    (outW.txid.data.length = 32 ∧ isBytes outW.txid.data ∧ outW.n < 2 ^ 32 ∧
      COutPoint.from_hex (COutPoint.to_hex outW) = some outW) ∧
    (isBytes pkW.keydata ∧ pkW.keydata.length < 2 ^ 64 ∧
      (PublicKey.from_hex (bytesToHex pkW.keydata) = some pkW ∧
       PublicKey.to_hex pkW = bytesToHex pkW.serialize)) :=
  ⟨⟨by decide, by decide, by norm_num [outW],
    from_hex_to_hex_roundtrip.1 outW (by decide) (by decide) (by norm_num [outW])⟩,
   ⟨by decide, by norm_num [pkW],
    from_hex_to_hex_roundtrip.2 pkW (by decide) (by norm_num [pkW])⟩⟩

end ElectrumABC
